import Mathlib

/-!
Verification of the pz_mod_manager core against its specification.

The Python sources are shallowly embedded: a Python `str` is modelled as a
`List Char` (named `Str` below), Python string methods become Lean functions
on `Str`, and file-system / Qt interactions become explicit state passing.
Each definition is annotated with the source function it embeds.
-/

namespace PZ

/-- A Python string, modelled as its list of characters. -/
abbrev Str := List Char

/-! ### Python string primitives -/

/-- The ASCII whitespace characters removed by Python's `str.strip()`
(without arguments). -/
def pyIsSpace (c : Char) : Bool :=
  c = ' ' || c = '\t' || c = '\n' || c = '\x0d' || c = '\x0b' || c = '\x0c'

/-- Python `str.strip(chars)`: remove characters satisfying `p` from both
ends of the string. -/
def pyStripGen (p : Char → Bool) (s : Str) : Str :=
  ((s.dropWhile p).reverse.dropWhile p).reverse

/-- Python `str.strip()` (no arguments): strip whitespace from both ends. -/
def pyStrip (s : Str) : Str := pyStripGen pyIsSpace s

/-- The tail component of Python `str.partition(sep)` for a one-character
separator: everything after the first occurrence of `sep`, or the empty
string when `sep` does not occur. -/
def pyPartitionAfter (sep : Char) : Str → Str
  | [] => []
  | c :: cs => if c = sep then cs else pyPartitionAfter sep cs

/-! ### IniService (services/ini_service.py) -/

/-- The `"Mods="` directive key. -/
def modsKey : Str := ['M', 'o', 'd', 's', '=']

/-- The `"WorkshopItems="` directive key. -/
def workshopKey : Str :=
  ['W', 'o', 'r', 'k', 's', 'h', 'o', 'p', 'I', 't', 'e', 'm', 's', '=']

/-- The character set of Python `value.strip(";\\ ")` used by
`IniService._parse_semicolon_list`. -/
def semiListStripChar (c : Char) : Bool := c = ';' || c = '\\' || c = ' '

/-- The `while items and not items[-1]: items.pop()` loop of
`IniService._parse_semicolon_list`: drop trailing empty entries. -/
def dropTrailingEmpties (items : List Str) : List Str :=
  (items.reverse.dropWhile (fun x => x.isEmpty)).reverse

/-- Embeds `IniService._parse_semicolon_list` (ini_service.py:248-262): split
`Key=val1;val2;val3` into `[val1, val2, val3]`, returning `[]` when the
value is empty or consists only of `;`, `\` and space characters, and
dropping trailing empty entries. -/
def parseSemicolonList (line : Str) : List Str :=
  let value := pyPartitionAfter '=' line
  if value.isEmpty || (pyStripGen semiListStripChar value).isEmpty then []
  else dropTrailingEmpties (value.splitOn ';')

/-- The accumulator of `IniService.load`'s line loop: the `mod_ids` and
`workshop_ids` local variables. -/
structure LoadState where
  mod_ids : List Str
  workshop_ids : List Str
deriving DecidableEq

/-- One iteration of `IniService.load`'s loop (ini_service.py:58-65):
a line whose stripped form starts with `Mods=` re-assigns `mod_ids`
(stripping all leading backslashes from each entry, Python
`mid.lstrip("\\")`); one starting with `WorkshopItems=` re-assigns
`workshop_ids`; every other line is ignored. -/
def loadStep (st : LoadState) (line : Str) : LoadState :=
  let stripped := pyStrip line
  if modsKey.isPrefixOf stripped then
    { st with
      mod_ids := (parseSemicolonList stripped).map
        (fun mid => mid.dropWhile (fun c => c = '\\')) }
  else if workshopKey.isPrefixOf stripped then
    { st with workshop_ids := parseSemicolonList stripped }
  else st

/-- Embeds `IniService.load` (ini_service.py:47-67), applied to the list of lines
read from the file. Later directive occurrences overwrite earlier ones. -/
def load (lines : List Str) : List Str × List Str :=
  let st := lines.foldl loadStep ⟨[], []⟩
  (st.mod_ids, st.workshop_ids)

/-- The fresh `Mods=` line built by `IniService.save` (ini_service.py:83-84):
empty ids are filtered out, each remaining id gets a `\` B42 escape, and the
results are joined with `;`. -/
def formatModsLine (mod_ids : List Str) : Str :=
  modsKey ++
    List.intercalate [';']
      ((mod_ids.filter (fun m => !m.isEmpty)).map (fun m => '\\' :: m)) ++
    ['\n']

/-- The fresh `WorkshopItems=` line built by `IniService.save`
(ini_service.py:85): ids joined with `;` as-is. -/
def formatWorkshopLine (workshop_ids : List Str) : Str :=
  workshopKey ++ List.intercalate [';'] workshop_ids ++ ['\n']

/-- The line-rewriting loop of `IniService.save` (ini_service.py:87-105),
carried out with the `found_mods` / `found_workshop` flags: every line whose
stripped form starts with `Mods=` is replaced by the fresh mods line (and
likewise for `WorkshopItems=`), every other line is passed through, and a
directive that never occurred is appended at the end (mods line first). -/
def renderGo (modsLine wsLine : Str) :
    List Str → Bool → Bool → List Str
  | [], foundM, foundW =>
    (if foundM then [] else [modsLine]) ++ (if foundW then [] else [wsLine])
  | l :: ls, foundM, foundW =>
    let stripped := pyStrip l
    if modsKey.isPrefixOf stripped then
      modsLine :: renderGo modsLine wsLine ls true foundW
    else if workshopKey.isPrefixOf stripped then
      wsLine :: renderGo modsLine wsLine ls foundM true
    else
      l :: renderGo modsLine wsLine ls foundM foundW

/-- The pure line-rewriting part of `IniService.save` (ini_service.py:79-105):
from the lines of the existing file and the two id lists, produce the new
list of lines that will be written. -/
def render (lines : List Str) (mod_ids workshop_ids : List Str) : List Str :=
  renderGo (formatModsLine mod_ids) (formatWorkshopLine workshop_ids)
    lines false false

/-! ### Workshop scanner (services/workshop_scanner.py) -/

/-- Python `str.splitlines()` worker: `cur` is the current line accumulated
in reverse. Handles the `\n`, `\r` and `\r\n` terminators (the exotic
unicode line breaks Python also recognizes do not occur in this data) and
produces no trailing empty line for a trailing terminator. -/
def pySplitlinesGo : Str → Str → List Str
  | cur, [] => [cur.reverse]
  | cur, '\n' :: rest => cur.reverse :: pySplitlinesGo [] rest
  | cur, '\x0d' :: '\n' :: rest => cur.reverse :: pySplitlinesGo [] rest
  | cur, '\x0d' :: rest => cur.reverse :: pySplitlinesGo [] rest
  | cur, c :: rest => pySplitlinesGo (c :: cur) rest

/-- Python `str.splitlines()` (the empty string yields no lines). -/
def pySplitlines (s : Str) : List Str :=
  if s.isEmpty then [] else pySplitlinesGo [] s

/-- The `"id="` descriptor key. -/
def idKey : Str := ['i', 'd', '=']

/-- The `"name="` descriptor key. -/
def nameKey : Str := ['n', 'a', 'm', 'e', '=']

/-- One iteration of `_parse_mod_info`'s line loop
(workshop_scanner.py:141-146): the state is the `(mod_id, name)` pair of
locals; a stripped line starting with `id=` re-assigns `mod_id` to the
stripped value after the first `=`, one starting with `name=` re-assigns
`name`; every other line is ignored. -/
def modInfoStep (st : Str × Str) (rawLine : Str) : Str × Str :=
  let line := pyStrip rawLine
  if idKey.isPrefixOf line then
    (pyStrip (pyPartitionAfter '=' line), st.2)
  else if nameKey.isPrefixOf line then
    (st.1, pyStrip (pyPartitionAfter '=' line))
  else st

/-- Embeds `_parse_mod_info` (workshop_scanner.py:132-150) on a successfully read
descriptor text: fold the line loop, then return `(mod_id, name)` only when
the resulting `mod_id` is non-empty (Python `if mod_id:`). -/
def parseModInfo (text : Str) : Option (Str × Str) :=
  let st := (pySplitlines text).foldl modInfoStep ([], [])
  if st.1.isEmpty then none else some st

/-- A mod directory as seen by `_find_best_mod_info`: the content of a
root-level `mod.info` if present, and the subdirectories (in directory
listing order), each with the content of its `mod.info` if present. -/
structure ModDir where
  root : Option Str
  subs : List (Str × Option Str)
deriving DecidableEq

/-- Lexicographic comparison of Python strings by code point
(`s ≤ t` in Python). -/
def strLe : Str → Str → Bool
  | [], _ => true
  | _ :: _, [] => false
  | a :: as, b :: bs => if a < b then true else if b < a then false else strLe as bs

/-- Stable insertion of `x` into a list sorted descending by `strLe` on the
first component: `x` goes after every element whose key is `≥ x`'s key.
This models the element order produced by Python's stable
`list.sort(key=lambda x: x[0], reverse=True)`. -/
def insertDescBy (x : Str × Str) : List (Str × Str) → List (Str × Str)
  | [] => [x]
  | y :: ys => if strLe x.1 y.1 then y :: insertDescBy x ys else x :: y :: ys

/-- Python `info_files.sort(key=lambda x: x[0], reverse=True)`: stable sort,
descending by the first component. -/
def sortDescByName (l : List (Str × Str)) : List (Str × Str) :=
  l.foldl (fun acc x => insertDescBy x acc) []

/-- The `info_files` list collected by `_find_best_mod_info`
(workshop_scanner.py:104-114): the root `mod.info` tagged with the empty
version name, then every subdirectory `mod.info` tagged with the
subdirectory name, in listing order. -/
def infoFilesOf (d : ModDir) : List (Str × Str) :=
  (match d.root with
   | some t => [([], t)]
   | none => []) ++
  d.subs.filterMap (fun p =>
    match p.2 with
    | some t => some (p.1, t)
    | none => none)

/-- Embeds `_find_best_mod_info` (workshop_scanner.py:95-129): collect the root
`mod.info` (tagged with the empty version name) and every subdirectory
`mod.info` (tagged with the subdirectory name), sort descending by tag,
take `info_files[0]` if its tag is non-empty else `info_files[-1]`, then
override with the first sorted entry carrying a non-empty version tag, and
parse the chosen file. -/
def findBestModInfo (d : ModDir) : Option (Str × Str) :=
  match sortDescByName (infoFilesOf d) with
  | [] => none
  | first :: rest =>
    let best0 :=
      if first.1.isEmpty then
        ((first :: rest).getLast (List.cons_ne_nil _ _)).2
      else first.2
    let best :=
      match (first :: rest).find? (fun p => !p.1.isEmpty) with
      | some p => p.2
      | none => best0
    parseModInfo best

/-- The `WorkshopModInfo` dataclass (workshop_scanner.py:10-16). -/
structure WorkshopModInfo where
  mod_id : Str
  name : Str
  workshop_id : Str
deriving DecidableEq

/-- A directory entry of the resolved content directory, as iterated by
`scan_workshop_content` (workshop_scanner.py:37-57): its name, whether it
is a directory, and — when a `mods` subdirectory exists — the mod
directories inside it (in listing order). -/
structure ItemDir where
  name : Str
  isDir : Bool
  mods : Option (List ModDir)
deriving DecidableEq

/-- Python `str.isdigit` restricted to ASCII decimal digits. -/
def pyIsDigit (c : Char) : Bool := '0' ≤ c && c ≤ '9'

/-- Python `str.isdigit()`: non-empty and all digits. -/
def strIsDigit (s : Str) : Bool := !s.isEmpty && s.all pyIsDigit

/-- One iteration of `scan_workshop_content`'s item loop
(workshop_scanner.py:37-57): skip entries that are not directories with
purely numeric names, skip items without a `mods` directory, and append a
`_find_best_mod_info` result for every mod directory, tagged with the
item's name as `workshop_id`. -/
def scanStep (acc : List WorkshopModInfo) (item : ItemDir) :
    List WorkshopModInfo :=
  if item.isDir && strIsDigit item.name then
    match item.mods with
    | none => acc
    | some modDirs =>
      acc ++ modDirs.filterMap (fun md =>
        (findBestModInfo md).map (fun r =>
          { mod_id := r.1, name := r.2, workshop_id := item.name }))
  else acc

/-- Embeds `scan_workshop_content` (workshop_scanner.py:19-59) applied to the
listing of an already-resolved content directory. -/
def scanWorkshopContent (items : List ItemDir) : List WorkshopModInfo :=
  items.foldl scanStep []

/-! ### Sidecar store (views/main_window.py:361-387) -/

/-- A parsed JSON value, as produced by Python's `json.loads`. -/
inductive Json where
  | null
  | bool (b : Bool)
  | num (n : Int)
  | str (s : Str)
  | arr (xs : List Json)
  | obj (fields : List (Str × Json))

/-- The possible states of the sidecar file as observed by
`MainWindow._load_sidecar`: absent, present but unreadable (`read_text`
raises `OSError`), present but not valid JSON (`json.loads` raises
`JSONDecodeError`), or present with a parse result. -/
inductive SidecarFile where
  | missing
  | unreadable
  | invalidJson
  | parsed (v : Json)

/-- The Python exceptions that can escape `_load_sidecar`. -/
inductive PyExc where
  | osError
  | attributeError
deriving DecidableEq

/-- Python `dict.get key default` on the dict built by `json.loads` from an
object: for duplicate keys the last binding wins. -/
def dictGet (fields : List (Str × Json)) (key : Str) (default : Json) : Json :=
  match fields.reverse.find? (fun p => p.1 = key) with
  | some p => p.2
  | none => default

/-- The `"disabled_mods"` sidecar key. -/
def disabledModsKey : Str := ("disabled_mods").data

/-- Embeds `MainWindow._load_sidecar` (main_window.py:364-372). A missing file
returns `[]`; `json.JSONDecodeError` (and the impossible `KeyError`) is
caught and yields `[]`; an unreadable file propagates `OSError`; a JSON
value that is not an object makes `data.get` raise `AttributeError`, which
the `except` clause does not cover; an object returns its `disabled_mods`
value verbatim (defaulting to `[]`), whatever its shape. -/
def loadSidecar (f : SidecarFile) : Except PyExc Json :=
  match f with
  | .missing => .ok (.arr [])
  | .unreadable => .error .osError
  | .invalidJson => .ok (.arr [])
  | .parsed (.obj fields) => .ok (dictGet fields disabledModsKey (.arr []))
  | .parsed _ => .error .attributeError

/-! ### Mod model and save-path list derivation
(models/mod.py, models/mod_list_model.py, views/main_window.py) -/

/-- The `Mod` dataclass (models/mod.py). -/
structure Mod where
  mod_id : Str
  workshop_id : Str
  name : Str := []
  description : Str := []
  enabled : Bool := true
deriving DecidableEq

/-- Embeds `ModListModel.enabled_mods` (mod_list_model.py:125-126). -/
def enabledMods (mods : List Mod) : List Mod :=
  mods.filter (fun m => m.enabled)

/-- The `mod_ids` list built by `MainWindow._save_file`
(main_window.py:333): `[m.mod_id for m in enabled if m.mod_id]`. -/
def saveModIds (mods : List Mod) : List Str :=
  ((enabledMods mods).filter (fun m => !m.mod_id.isEmpty)).map
    (fun m => m.mod_id)

/-- Python `list(dict.fromkeys l)`: keep the first occurrence of each
element, in insertion order. -/
def dictFromKeys (l : List Str) : List Str :=
  l.foldl (fun acc x => if x ∈ acc then acc else acc ++ [x]) []

/-- The `workshop_ids` list built by `MainWindow._save_file`
(main_window.py:336-338):
`list(dict.fromkeys(m.workshop_id for m in enabled if m.workshop_id))`. -/
def saveWorkshopIds (mods : List Mod) : List Str :=
  dictFromKeys
    (((enabledMods mods).filter (fun m => !m.workshop_id.isEmpty)).map
      (fun m => m.workshop_id))

/-! ### Asynchronous name enrichment (views/main_window.py:531-558) -/

/-- Embeds `ModListModel.update_mod_name` (mod_list_model.py:128-134): set the
name of every mod sharing the given `workshop_id`. -/
def updateModName (mods : List Mod) (wid name : Str) : List Mod :=
  mods.map (fun m =>
    if m.workshop_id = wid then { m with name := name } else m)

/-- Embeds `MainWindow._on_names_fetched` (main_window.py:549-558) applied to one
delivered result list (each result modelled as its `publishedfileid` and
`title` fields): every entry with non-empty id and title updates the model,
unconditionally — the handler consults no generation counter. -/
def onNamesFetched (mods : List Mod) (results : List (Str × Str)) :
    List Mod :=
  results.foldl
    (fun ms item =>
      if !item.1.isEmpty && !item.2.isEmpty then
        updateModName ms item.1 item.2
      else ms)
    mods

/-! ### Atomic persist (ini_service.py:107-121) -/

/-- The file-system window relevant to `IniService.save`'s write phase:
the content of the destination file (`none` if absent) and the content of
the temporary file (`none` if absent). Contents are line lists. -/
structure FileSys where
  dest : Option (List Str)
  tmp : Option (List Str)
deriving DecidableEq

/-- The nondeterministic outcome of the write phase, resolved by the
environment: either `f.writelines` completes, or it raises after writing
a partial prefix (`err` identifies the raised exception). -/
inductive WriteOutcome where
  | ok
  | fail (written : List Str) (err : Nat)
deriving DecidableEq

/-- The write phase of `IniService.save` (ini_service.py:107-121) as a
state trace: `tempfile.mkstemp` creates an empty temp file, `f.writelines`
fills it (or raises after a partial write), `os.replace` atomically renames
the temp file onto the destination; on failure the `except` block unlinks
the temp file and re-raises. Returns the trace of file-system states after
each primitive operation, plus the escaping exception if any. -/
def persistTrace (fs : FileSys) (newLines : List Str) (oc : WriteOutcome) :
    List FileSys × Option Nat :=
  let fs1 : FileSys := { fs with tmp := some [] }
  match oc with
  | .ok =>
    let fs2 : FileSys := { fs1 with tmp := some newLines }
    let fs3 : FileSys := { dest := some newLines, tmp := none }
    ([fs1, fs2, fs3], none)
  | .fail written err =>
    let fs2 : FileSys := { fs1 with tmp := some written }
    let fs3 : FileSys := { fs2 with tmp := none }
    ([fs1, fs2, fs3], some err)

/-! ### Spec-side definitions

These follow the specification's wording, to be compared with the
source-derived definitions above. -/

/-- A character allowed in an ASCII identifier: ASCII letters and digits
plus `_`, `-` and `.`; in particular never `;`, `=`, `\` or whitespace. -/
def isIdentChar (c : Char) : Bool :=
  c.isAlphanum || c = '_' || c = '-' || c = '.'

/-- An ASCII identifier: non-empty, made of identifier characters only. -/
def isAsciiIdent (s : Str) : Bool := !s.isEmpty && s.all isIdentChar

/-- Spec-side "duplicates removed preserving first-seen order": keep each
element's first occurrence, drop the later ones. -/
def dedupFirstSeen : List Str → List Str
  | [] => []
  | x :: xs => x :: dedupFirstSeen (xs.filter (fun y => y ≠ x))
termination_by l => l.length
decreasing_by
  exact Nat.lt_succ_of_le (List.length_filter_le _ _)

/-- A line recognized as the content-id directive by both `load` and
`save`. -/
def isModsLine (l : Str) : Bool := modsKey.isPrefixOf (pyStrip l)

/-- A line recognized as the repository-id directive by both `load` and
`save`. -/
def isWorkshopLine (l : Str) : Bool := workshopKey.isPrefixOf (pyStrip l)

/-- A non-directive ("opaque passthrough") line. -/
def isOpaqueLine (l : Str) : Bool := !isModsLine l && !isWorkshopLine l

/-- Spec-side description of `save`'s per-line rewriting: a `Mods=` line
becomes the fresh mods line, a `WorkshopItems=` line becomes the fresh
workshop line, anything else is passed through unchanged. -/
def renderLine (modsLine wsLine l : Str) : Str :=
  if isModsLine l then modsLine
  else if isWorkshopLine l then wsLine
  else l

/-- Spec-side last-occurrence descriptor field: the value of the last
stripped line starting with `key`, stripped after the first `=`. -/
def lastKeyVal (key : Str) (text : Str) : Option Str :=
  ((((pySplitlines text).map pyStrip).filter
      (fun l => key.isPrefixOf l)).getLast?).map
    (fun l => pyStrip (pyPartitionAfter '=' l))

/-! ### Helper lemmas -/

theorem dedupFirstSeen_nil : dedupFirstSeen [] = [] := by
  rw [dedupFirstSeen.eq_def]

theorem dedupFirstSeen_cons (x : Str) (xs : List Str) :
    dedupFirstSeen (x :: xs) =
      x :: dedupFirstSeen (xs.filter (fun y => y ≠ x)) := by
  rw [dedupFirstSeen.eq_def]

/-- Python `dict.fromkeys` insertion order equals first-seen deduplication,
relative to an accumulator of already-seen keys. -/
theorem dictFromKeys_go (l : List Str) : ∀ acc : List Str,
    l.foldl (fun acc x => if x ∈ acc then acc else acc ++ [x]) acc =
      acc ++ dedupFirstSeen (l.filter (fun y => decide (y ∉ acc))) := by
  induction l with
  | nil => intro acc; simp [dedupFirstSeen_nil]
  | cons x xs ih =>
    intro acc
    by_cases hx : x ∈ acc
    · simp only [List.foldl_cons, if_pos hx, ih acc, List.filter_cons]
      simp [hx]
    · simp only [List.foldl_cons, if_neg hx, ih (acc ++ [x]), List.filter_cons]
      simp only [hx, not_false_iff, List.append_assoc, List.singleton_append,
        decide_not]
      rw [if_pos (by simp [hx])]
      rw [dedupFirstSeen_cons]
      congr 2
      apply congrArg
      rw [List.filter_filter]
      apply List.filter_congr
      intro y _
      by_cases hy : y = x <;> by_cases hacc : y ∈ acc <;>
        simp [hy, hacc]

/-- Python `list(dict.fromkeys l)` is exactly first-seen deduplication. -/
theorem dictFromKeys_eq_dedupFirstSeen (l : List Str) :
    dictFromKeys l = dedupFirstSeen l := by
  have h := dictFromKeys_go l []
  simpa [dictFromKeys] using h

/-- Filtering after mapping equals mapping after filtering on the
composed predicate. -/
theorem filter_map_comm {α β : Type} (f : α → β) (p : β → Bool)
    (l : List α) :
    (l.map f).filter p = (l.filter (fun a => p (f a))).map f := by
  induction l with
  | nil => rfl
  | cons a t ih =>
    by_cases h : p (f a) <;> simp [List.filter_cons, h, ih]

/-- No stripped line is recognized as both directives: the two directive
keys differ in their first character. -/
theorem mods_workshop_disjoint (s : Str) :
    modsKey.isPrefixOf s = true → workshopKey.isPrefixOf s = false := by
  intro h
  cases s with
  | nil => simp [modsKey, List.isPrefixOf] at h
  | cons c cs =>
    simp only [modsKey, List.isPrefixOf, Bool.and_eq_true, beq_iff_eq] at h
    obtain ⟨hc, -⟩ := h
    subst hc
    simp [workshopKey, List.isPrefixOf]

/-- Characterization of `save`'s rewriting loop: with the `found` flags
generalized, the output is the per-line rewrite of the input followed by
the fresh lines of the directives neither flagged nor present. -/
theorem renderGo_eq (mL wL : Str) (lines : List Str) :
    ∀ fM fW : Bool,
    renderGo mL wL lines fM fW =
      lines.map (renderLine mL wL) ++
        ((if fM || lines.any isModsLine then [] else [mL]) ++
         (if fW || lines.any isWorkshopLine then [] else [wL])) := by
  induction lines with
  | nil =>
    intro fM fW
    cases fM <;> cases fW <;> simp [renderGo]
  | cons l ls ih =>
    intro fM fW
    by_cases hm : isModsLine l
    · have hw : isWorkshopLine l = false :=
        mods_workshop_disjoint (pyStrip l) hm
      rw [isModsLine] at hm
      rw [isWorkshopLine] at hw
      simp [renderGo, hm, hw, renderLine, isModsLine, isWorkshopLine,
        ih true fW]
    · by_cases hw : isWorkshopLine l
      · rw [isModsLine] at hm
        rw [isWorkshopLine] at hw
        simp only [Bool.not_eq_true] at hm
        simp [renderGo, hm, hw, renderLine, isModsLine, isWorkshopLine,
          ih fM true]
      · rw [isModsLine] at hm
        rw [isWorkshopLine] at hw
        simp only [Bool.not_eq_true] at hm hw
        simp [renderGo, hm, hw, renderLine, isModsLine, isWorkshopLine,
          ih fM fW]

/-! ### Claim theorems -/

/-- C2 counterexample: duplicate directive lines are not dropped. An input
with two `Mods=` lines renders to an output with two directive lines for
`Mods=` (each replaced in place by the fresh line), not exactly one. -/
theorem C2_counterexample :
    (render [("Mods=a\n").data, ("Mods=b\n").data] [("x").data]
        []).countP isModsLine = 2 ∧
    ¬ (render [("Mods=a\n").data, ("Mods=b\n").data] [("x").data]
        []).countP isModsLine = 1 := by
  constructor <;> decide

/-- C2 amended: `save`'s rendering replaces every matching directive line,
in place, by the same freshly formatted line (so duplicates each become a
copy of the fresh line and are preserved, not dropped), passes every other
line through unchanged, and appends a fresh line for each directive
entirely absent from the input (mods line first). -/
theorem C2_amended (lines mod_ids workshop_ids : List Str) :
    render lines mod_ids workshop_ids =
      lines.map
        (renderLine (formatModsLine mod_ids)
          (formatWorkshopLine workshop_ids)) ++
        ((if lines.any isModsLine then []
          else [formatModsLine mod_ids]) ++
         (if lines.any isWorkshopLine then []
          else [formatWorkshopLine workshop_ids])) := by
  simpa using renderGo_eq _ _ lines false false

/-- C7: passthrough invariant. Every non-directive input line appears
byte-for-byte in `save`'s rendered output, in its original relative order
(the filtered opaque lines form a sublist of the output). -/
theorem C7_passthrough (lines mod_ids workshop_ids : List Str) :
    List.Sublist (lines.filter isOpaqueLine)
      (render lines mod_ids workshop_ids) := by
  rw [render, renderGo_eq]
  refine List.Sublist.trans ?_ (List.sublist_append_left _ _)
  induction lines with
  | nil => simp
  | cons l ls ih =>
    by_cases ho : isOpaqueLine l
    · have hm : isModsLine l = false := by
        rw [isOpaqueLine] at ho
        rcases Bool.and_eq_true _ _ |>.mp ho with ⟨h1, -⟩
        simpa using h1
      have hw : isWorkshopLine l = false := by
        rw [isOpaqueLine] at ho
        rcases Bool.and_eq_true _ _ |>.mp ho with ⟨-, h2⟩
        simpa using h2
      simp only [List.filter_cons, ho, if_pos, List.map_cons, renderLine,
        hm, hw, Bool.false_eq_true, if_false]
      exact List.Sublist.cons₂ _ ih
    · simp only [Bool.not_eq_true] at ho
      simp only [List.filter_cons, ho, List.map_cons]
      exact List.Sublist.cons _ ih

/-- C6: Save-path list derivation. For every entity collection, the saved
content-id list is exactly the active entities' `mod_id`s with empty
strings dropped in original order, and the saved repository-id list is
exactly the active entities' `workshop_id`s with empty strings dropped and
duplicates removed preserving first-seen order. In particular (concrete
instance) two active entities sharing `workshop_id` "555" with different
`mod_id`s yield one "555" entry and one content-id entry each. -/
theorem C6_save_list_derivation :
    (∀ mods : List Mod,
      saveModIds mods =
        ((mods.filter (fun m => m.enabled)).map
            (fun m => m.mod_id)).filter (fun s => !s.isEmpty) ∧
      saveWorkshopIds mods =
        dedupFirstSeen
          (((mods.filter (fun m => m.enabled)).map
              (fun m => m.workshop_id)).filter (fun s => !s.isEmpty))) ∧
    saveModIds
        [{ mod_id := ("a").data, workshop_id := ("555").data },
         { mod_id := ("b").data, workshop_id := ("555").data }] =
      [("a").data, ("b").data] ∧
    saveWorkshopIds
        [{ mod_id := ("a").data, workshop_id := ("555").data },
         { mod_id := ("b").data, workshop_id := ("555").data }] =
      [("555").data] := by
  refine ⟨fun mods => ⟨?_, ?_⟩, by decide, by decide⟩
  · rw [saveModIds, enabledMods, filter_map_comm]
  · rw [saveWorkshopIds, enabledMods, filter_map_comm,
      dictFromKeys_eq_dedupFirstSeen]

/-- C3 counterexample: sidecar load is not total. A sidecar holding the
valid JSON text `[]` (an array, not an object) makes `_load_sidecar` raise
`AttributeError` (`data.get` on a list), an unreadable sidecar propagates
`OSError`, and a `disabled_mods` value that is not a list is returned as-is
rather than as an empty sequence — all contradicting "returns a (possibly
empty) sequence of entities and never raises". -/
theorem C3_counterexample :
    loadSidecar (.parsed (.arr [])) = .error .attributeError ∧
    loadSidecar .unreadable = .error .osError ∧
    loadSidecar
        (.parsed (.obj [(disabledModsKey, .str ("x").data)])) =
      .ok (.str ("x").data) :=
  ⟨rfl, rfl, rfl⟩

/-- C3 amended: `_load_sidecar` returns the empty list for a missing
sidecar and for one whose content is not valid JSON; for a JSON object it
returns the object's `disabled_mods` value verbatim (defaulting to the
empty list), whatever its shape; it raises `OSError` when the file is
unreadable and `AttributeError` when the top-level JSON value is not an
object. -/
theorem C3_amended :
    loadSidecar .missing = .ok (.arr []) ∧
    loadSidecar .invalidJson = .ok (.arr []) ∧
    (∀ fields, loadSidecar (.parsed (.obj fields)) =
        .ok (dictGet fields disabledModsKey (.arr []))) ∧
    loadSidecar .unreadable = .error .osError ∧
    (∀ v : Json, (∀ fields, v ≠ .obj fields) →
        loadSidecar (.parsed v) = .error .attributeError) := by
  refine ⟨rfl, rfl, fun fields => rfl, rfl, fun v hv => ?_⟩
  cases v with
  | obj fields => exact absurd rfl (hv fields)
  | null => rfl
  | bool b => rfl
  | num n => rfl
  | str s => rfl
  | arr xs => rfl

/-- C3 amended, witness: the amended statement applied at the concrete
non-object JSON value `[]`. -/
theorem C3_amended_witness :
    loadSidecar (.parsed (.arr [])) = .error .attributeError :=
  C3_amended.2.2.2.2 (.arr []) (fun _ h => Json.noConfusion h)

/-- C9 counterexample: there is no stale-enrichment suppression. The
result handler applies every delivery unconditionally (the code carries no
generation counter), so when delivery B (title "TitleB") is applied first
and the older delivery A (title "TitleA") arrives afterwards, A's result
overwrites B's — contradicting "A's result never overwrites B's". -/
theorem C9_counterexample :
    onNamesFetched
        (onNamesFetched
          [{ mod_id := ("ModA").data, workshop_id := ("555").data }]
          [(("555").data, ("TitleB").data)])
        [(("555").data, ("TitleA").data)] =
      [{ mod_id := ("ModA").data, workshop_id := ("555").data,
         name := ("TitleA").data }] ∧
    ("TitleA").data ≠ ("TitleB").data := by
  constructor <;> decide

/-- C9 amended: deliveries are applied unconditionally in arrival order
(applying two deliveries in sequence equals applying their concatenation),
and within the mods sharing a delivered non-empty `workshop_id` the
last-arriving delivery's title wins — there is no generation tagging or
stale-result discarding. -/
theorem C9_amended (mods : List Mod) (r1 r2 : List (Str × Str)) :
    onNamesFetched (onNamesFetched mods r1) r2 =
      onNamesFetched mods (r1 ++ r2) ∧
    (∀ wid title m, wid.isEmpty = false → title.isEmpty = false →
      m ∈ onNamesFetched mods [(wid, title)] →
      m.workshop_id = wid → m.name = title) := by
  constructor
  · rw [onNamesFetched, onNamesFetched, onNamesFetched, List.foldl_append]
  · intro wid title m hw ht hm hid
    simp only [onNamesFetched, List.foldl_cons, List.foldl_nil] at hm
    rw [if_pos (by simp [hw, ht])] at hm
    simp only [updateModName, List.mem_map] at hm
    obtain ⟨m0, _, hm0⟩ := hm
    by_cases h0 : m0.workshop_id = wid
    · rw [if_pos h0] at hm0
      rw [← hm0]
    · rw [if_neg h0] at hm0
      rw [← hm0] at hid
      exact absurd hid h0

/-- C9 amended, witness: the amended statement applied to one mod and one
concrete delivery. -/
theorem C9_amended_witness :
    ({ mod_id := ("ModA").data, workshop_id := ("555").data,
       name := ("T").data } : Mod).name = ("T").data :=
  (C9_amended
      [{ mod_id := ("ModA").data, workshop_id := ("555").data }] [] []).2
    (("555").data) (("T").data)
    { mod_id := ("ModA").data, workshop_id := ("555").data,
      name := ("T").data }
    (by decide) (by decide) (by decide) (by decide)

/-- C5: the write phase of `IniService.save` is atomic and failure-clean.
Along the whole trace the destination either still holds its prior content
or already holds the complete new content (never a partial file); a
successful run ends with the new content in place and no temp file; a
failed write re-raises the original exception and ends with the
destination unchanged and the temp file removed. -/
theorem C5_persist_atomic (fs : FileSys) (newLines : List Str)
    (oc : WriteOutcome) :
    (∀ s ∈ (persistTrace fs newLines oc).1,
        s.dest = fs.dest ∨ (s.dest = some newLines ∧ s.tmp = none)) ∧
    ((persistTrace fs newLines oc).2 = none →
        (persistTrace fs newLines oc).1.getLast? =
          some { dest := some newLines, tmp := none }) ∧
    (∀ w e, oc = .fail w e →
        (persistTrace fs newLines oc).2 = some e ∧
        (persistTrace fs newLines oc).1.getLast? =
          some { dest := fs.dest, tmp := none }) := by
  cases oc with
  | ok =>
    refine ⟨?_, fun _ => rfl, fun w e h => WriteOutcome.noConfusion h⟩
    intro s hs
    simp only [persistTrace, List.mem_cons, List.not_mem_nil, or_false]
      at hs
    rcases hs with h | h | h <;> subst h <;> simp
  | fail w e =>
    refine ⟨?_, fun h => Option.noConfusion h, ?_⟩
    · intro s hs
      simp only [persistTrace, List.mem_cons, List.not_mem_nil, or_false]
        at hs
      rcases hs with h | h | h <;> subst h <;> simp
    · intro w' e' h
      cases h
      exact ⟨rfl, rfl⟩

/-- C5, witness: a concrete failed write at a destination holding one line
re-raises the error and leaves the destination unchanged, and the first
trace state still holds the prior content. -/
theorem C5_persist_atomic_witness :
    ((persistTrace { dest := some [("old\n").data], tmp := none }
          [("new\n").data] (.fail [] 7)).2 = some 7 ∧
      (persistTrace { dest := some [("old\n").data], tmp := none }
          [("new\n").data] (.fail [] 7)).1.getLast? =
        some { dest := some [("old\n").data], tmp := none }) ∧
    (({ dest := some [("old\n").data], tmp := some [] } : FileSys).dest =
        ({ dest := some [("old\n").data], tmp := none } : FileSys).dest ∨
      (({ dest := some [("old\n").data], tmp := some [] } : FileSys).dest =
          some [("new\n").data] ∧
        ({ dest := some [("old\n").data], tmp := some [] } : FileSys).tmp =
          none)) :=
  ⟨(C5_persist_atomic { dest := some [("old\n").data], tmp := none }
      [("new\n").data] (.fail [] 7)).2.2 [] 7 rfl,
   (C5_persist_atomic { dest := some [("old\n").data], tmp := none }
      [("new\n").data] (.fail [] 7)).1
     { dest := some [("old\n").data], tmp := some [] } (by decide)⟩

/-- No stripped descriptor line is recognized as both `id=` and `name=`:
the keys differ in their first character. -/
theorem id_name_disjoint (s : Str) :
    idKey.isPrefixOf s = true → nameKey.isPrefixOf s = false := by
  intro h
  cases s with
  | nil => simp [idKey, List.isPrefixOf] at h
  | cons c cs =>
    simp only [idKey, List.isPrefixOf, Bool.and_eq_true, beq_iff_eq] at h
    obtain ⟨hc, -⟩ := h
    subst hc
    simp [nameKey, List.isPrefixOf]

/-- Repeated reassignment of a descriptor field: the last matching line's
value wins (the initial value if no line matches). -/
def lastAssign (st0 : Str) (ls : List Str) : Str :=
  ls.foldl (fun _ l => pyStrip (pyPartitionAfter '=' l)) st0

theorem lastAssign_eq (ls : List Str) : ∀ st0 : Str,
    lastAssign st0 ls =
      (ls.getLast?.map (fun l => pyStrip (pyPartitionAfter '=' l))).getD
        st0 := by
  induction ls with
  | nil => intro st0; rfl
  | cons x xs ih =>
    intro st0
    cases xs with
    | nil => simp [lastAssign]
    | cons y ys =>
      rw [List.getLast?_cons_cons]
      have step : lastAssign st0 (x :: y :: ys) =
          lastAssign (pyStrip (pyPartitionAfter '=' x)) (y :: ys) := rfl
      rw [step, ih]
      have hsome : (y :: ys).getLast?.isSome := by
        simp [List.getLast?_isSome]
      obtain ⟨a, ha⟩ := Option.isSome_iff_exists.mp hsome
      rw [ha]
      rfl

/-- Characterization of `_parse_mod_info`'s line loop: each component of
the state is the last assignment over the stripped lines matching its key
(`id=` lines never match `name=` and vice versa). -/
theorem modInfo_foldl (lines : List Str) : ∀ st : Str × Str,
    lines.foldl modInfoStep st =
      (lastAssign st.1
         ((lines.map pyStrip).filter (fun l => idKey.isPrefixOf l)),
       lastAssign st.2
         ((lines.map pyStrip).filter (fun l => nameKey.isPrefixOf l))) := by
  induction lines with
  | nil => intro st; rfl
  | cons l ls ih =>
    intro st
    by_cases hid : idKey.isPrefixOf (pyStrip l)
    · have hname := id_name_disjoint (pyStrip l) hid
      rw [List.foldl_cons]
      rw [show modInfoStep st l =
          (pyStrip (pyPartitionAfter '=' (pyStrip l)), st.2) by
        simp [modInfoStep, hid]]
      rw [ih]
      simp [List.filter_cons, hid, hname, lastAssign]
    · by_cases hname : nameKey.isPrefixOf (pyStrip l)
      · rw [List.foldl_cons]
        rw [show modInfoStep st l =
            (st.1, pyStrip (pyPartitionAfter '=' (pyStrip l))) by
          simp only [Bool.not_eq_true] at hid
          simp [modInfoStep, hid, hname]]
        rw [ih]
        simp [List.filter_cons, hid, hname, lastAssign]
      · rw [List.foldl_cons]
        rw [show modInfoStep st l = st by
          simp only [Bool.not_eq_true] at hid hname
          simp [modInfoStep, hid, hname]]
        rw [ih]
        simp only [Bool.not_eq_true] at hid hname
        simp [List.filter_cons, hid, hname]

/-- Every successfully parsed descriptor has a non-empty `mod_id`. -/
theorem parseModInfo_some_ne_nil (text : Str) (r : Str × Str)
    (h : parseModInfo text = some r) : r.1 ≠ [] := by
  simp only [parseModInfo] at h
  split at h
  · exact Option.noConfusion h
  · cases h
    simp_all [List.isEmpty_iff]

/-- C4 counterexample: descriptor parsing is last-occurrence-wins, not
first-occurrence-wins. On a descriptor with `id=A`, `id=B`, `name=N1`,
`name=N2` in that order, `_parse_mod_info` returns `(B, N2)`, not the
first occurrences `(A, N1)` the claim predicts. -/
theorem C4_counterexample :
    parseModInfo ("id=A\nid=B\nname=N1\nname=N2").data =
      some (("B").data, ("N2").data) ∧
    ¬ parseModInfo ("id=A\nid=B\nname=N1\nname=N2").data =
      some (("A").data, ("N1").data) := by
  constructor <;> decide

/-- C4 amended: descriptor parsing recognizes only `id=` and `name=` lines
and takes the **last** occurrence of each key; the result is `none` exactly
when the winning `id` value is empty. -/
theorem C4_amended (text : Str) :
    parseModInfo text =
      (if ((lastKeyVal idKey text).getD []).isEmpty then none
       else some ((lastKeyVal idKey text).getD [],
         (lastKeyVal nameKey text).getD [])) := by
  simp only [parseModInfo, modInfo_foldl (pySplitlines text) ([], []),
    lastKeyVal, lastAssign_eq]

/-- C10 (implicit): a descriptor whose `id=` line carries an empty value
(nothing, or only whitespace, after the `=`) contributes no scan entry —
`_parse_mod_info` returns `none` for it, exactly as for a descriptor with
no `id=` line — and consequently every `WorkshopModInfo` produced by
`scan_workshop_content` has a non-empty `mod_id`. -/
theorem C10_empty_id_no_entry :
    parseModInfo ("id=\nname=X").data = none ∧
    parseModInfo ("id=   \nname=X").data = none ∧
    parseModInfo ("name=X").data = none ∧
    (∀ text r, parseModInfo text = some r → r.1 ≠ []) ∧
    (∀ items, ∀ info ∈ scanWorkshopContent items, info.mod_id ≠ []) := by
  refine ⟨by decide, by decide, by decide, parseModInfo_some_ne_nil, ?_⟩
  have hbest : ∀ (d : ModDir) (r : Str × Str),
      findBestModInfo d = some r → r.1 ≠ [] := by
    intro d r h
    rw [findBestModInfo] at h
    split at h
    · exact Option.noConfusion h
    · exact parseModInfo_some_ne_nil _ _ h
  have hstep : ∀ (acc : List WorkshopModInfo) (item : ItemDir),
      (∀ i ∈ acc, i.mod_id ≠ []) →
      ∀ i ∈ scanStep acc item, i.mod_id ≠ [] := by
    intro acc item hacc i hi
    rw [scanStep] at hi
    split at hi
    · split at hi
      · exact hacc i hi
      · rcases List.mem_append.mp hi with h | h
        · exact hacc i h
        · obtain ⟨md, -, hmd⟩ := List.mem_filterMap.mp h
          obtain ⟨r, hr, hir⟩ := Option.map_eq_some'.mp hmd
          have := hbest md r hr
          rw [← hir]
          simpa using this
    · exact hacc i hi
  intro items
  have hfold : ∀ (l : List ItemDir) (acc : List WorkshopModInfo),
      (∀ i ∈ acc, i.mod_id ≠ []) →
      ∀ i ∈ l.foldl scanStep acc, i.mod_id ≠ [] := by
    intro l
    induction l with
    | nil => intro acc hacc i hi; exact hacc i hi
    | cons item rest ih =>
      intro acc hacc i hi
      exact ih (scanStep acc item) (hstep acc item hacc) i hi
  intro info hinfo
  exact hfold items [] (by simp) info hinfo

/-- C10, witness: the non-emptiness facts applied at a concrete descriptor
and a concrete one-item scan. -/
theorem C10_empty_id_no_entry_witness :
    (("A").data, ("N").data).1 ≠ [] ∧
    ({ mod_id := ("A").data, name := ("N").data,
       workshop_id := ("123").data } : WorkshopModInfo).mod_id ≠ [] :=
  ⟨C10_empty_id_no_entry.2.2.2.1 (("id=A\nname=N").data)
      ((("A").data, ("N").data)) (by decide),
   C10_empty_id_no_entry.2.2.2.2
      [{ name := ("123").data, isDir := true,
         mods := some [{ root := some (("id=A\nname=N").data),
                         subs := [] }] }]
      { mod_id := ("A").data, name := ("N").data,
        workshop_id := ("123").data }
      (by decide)⟩

theorem insertDescBy_perm (x : Str × Str) (ys : List (Str × Str)) :
    List.Perm (insertDescBy x ys) (x :: ys) := by
  induction ys with
  | nil => exact List.Perm.refl _
  | cons y ys ih =>
    rw [insertDescBy]
    split
    · exact (ih.cons y).trans (List.Perm.swap x y ys)
    · exact List.Perm.refl _

/-- The stable descending sort permutes its input. -/
theorem sortDescByName_perm (l : List (Str × Str)) :
    List.Perm (sortDescByName l) l := by
  have go : ∀ (l acc : List (Str × Str)),
      List.Perm (l.foldl (fun a x => insertDescBy x a) acc) (l ++ acc) := by
    intro l
    induction l with
    | nil => intro acc; simp
    | cons x xs ih =>
      intro acc
      rw [List.foldl_cons]
      refine (ih (insertDescBy x acc)).trans ?_
      refine (List.Perm.append_left xs (insertDescBy_perm x acc)).trans ?_
      exact List.perm_middle
  simpa [sortDescByName] using go l []

/-- C8: scan descriptor precedence. If at least one version subdirectory
of a mod directory contains a descriptor, `_find_best_mod_info`'s result
is the parse of some version subdirectory's descriptor — never the root
descriptor; if no version subdirectory has a descriptor and a root
descriptor exists, the root descriptor is parsed. (Subdirectory names are
non-empty, as directory names are.) -/
theorem C8_scan_precedence (d : ModDir)
    (hnames : ∀ p ∈ d.subs, p.1 ≠ []) :
    ((∃ p ∈ d.subs, p.2 ≠ none) →
      ∃ v t, (v, some t) ∈ d.subs ∧ v ≠ [] ∧
        findBestModInfo d = parseModInfo t) ∧
    ((∀ p ∈ d.subs, p.2 = none) → ∀ rt, d.root = some rt →
      findBestModInfo d = parseModInfo rt) := by
  constructor
  · rintro ⟨p, hp, hne⟩
    obtain ⟨t₀, ht₀⟩ := Option.ne_none_iff_exists'.mp hne
    have hv₀ : p.1 ≠ [] := hnames p hp
    have hmem : (p.1, t₀) ∈ infoFilesOf d := by
      rw [infoFilesOf]
      refine List.mem_append.mpr (Or.inr ?_)
      refine List.mem_filterMap.mpr ⟨p, hp, ?_⟩
      rw [ht₀]
    have hmemS : (p.1, t₀) ∈ sortDescByName (infoFilesOf d) :=
      ((sortDescByName_perm _).mem_iff).mpr hmem
    cases hs : sortDescByName (infoFilesOf d) with
    | nil => rw [hs] at hmemS; exact absurd hmemS (List.not_mem_nil _)
    | cons first rest =>
      rw [hs] at hmemS
      have hex : ∃ q ∈ first :: rest,
          (fun q : Str × Str => !q.1.isEmpty) q = true :=
        ⟨(p.1, t₀), hmemS, by simpa [List.isEmpty_iff] using hv₀⟩
      have hfind :
          ((first :: rest).find? (fun q => !q.1.isEmpty)).isSome :=
        List.find?_isSome.mpr hex
      obtain ⟨q, hq⟩ := Option.isSome_iff_exists.mp hfind
      have hqpred := List.find?_some hq
      have hq1 : q.1 ≠ [] := by simpa [List.isEmpty_iff] using hqpred
      have hqmem : q ∈ first :: rest := List.mem_of_find?_eq_some hq
      have hqmemI : q ∈ infoFilesOf d := by
        rw [← hs] at hqmem
        exact (sortDescByName_perm _).mem_iff.mp hqmem
      rw [infoFilesOf] at hqmemI
      rcases List.mem_append.mp hqmemI with hroot | hsub
      · exfalso
        cases hr : d.root with
        | none =>
          rw [hr] at hroot
          exact (List.not_mem_nil _) hroot
        | some rt =>
          rw [hr] at hroot
          simp only [List.mem_singleton] at hroot
          apply hq1
          rw [hroot]
      · obtain ⟨p', hp', heq⟩ := List.mem_filterMap.mp hsub
        cases h2 : p'.2 with
        | none => rw [h2] at heq; exact Option.noConfusion heq
        | some t' =>
          rw [h2] at heq
          simp only [Option.some.injEq] at heq
          refine ⟨p'.1, t', ?_, ?_, ?_⟩
          · have : (p'.1, p'.2) = p' := rfl
            rw [← h2] at *
            rw [this]
            exact hp'
          · rw [← heq] at hq1
            exact fun h => hq1 (by rw [h])
          · rw [findBestModInfo, hs]
            simp only [hq]
            rw [← heq]
  · intro hall rt hrt
    have hfm : d.subs.filterMap (fun p =>
        match p.2 with
        | some t => some (p.1, t)
        | none => none) = [] := by
      rw [List.filterMap_eq_nil_iff]
      intro p hp
      rw [hall p hp]
    rw [findBestModInfo, infoFilesOf, hrt, hfm]
    simp [sortDescByName, insertDescBy, List.find?]

/-- C8, witness: the concrete "Old"/"New" scenario — root descriptor names
the mod "Old", the version subdirectory `42`'s descriptor names it "New";
scan precedence picks a version descriptor, and concretely the result's
name is "New". -/
theorem C8_scan_precedence_witness :
    (∃ v t,
      (v, some t) ∈
        [(("42").data, some (("id=X\nname=New").data))] ∧
      v ≠ [] ∧
      findBestModInfo
          { root := some (("id=X\nname=Old").data),
            subs := [(("42").data, some (("id=X\nname=New").data))] } =
        parseModInfo t) ∧
    findBestModInfo
        { root := some (("id=X\nname=Old").data),
          subs := [(("42").data, some (("id=X\nname=New").data))] } =
      some (("X").data, ("New").data) :=
  ⟨(C8_scan_precedence
      { root := some (("id=X\nname=Old").data),
        subs := [(("42").data, some (("id=X\nname=New").data))] }
      (by decide)).1
    ⟨(("42").data, some (("id=X\nname=New").data)), by decide, by decide⟩,
   by decide⟩

/-! ### Helpers for the round-trip theorem (C1) -/

theorem intercalate_nil_eq {α : Type} (sep : List α) :
    List.intercalate sep ([] : List (List α)) = [] := rfl

theorem intercalate_singleton_eq {α : Type} (sep : List α) (x : List α) :
    List.intercalate sep [x] = x := by
  simp [List.intercalate]

theorem intercalate_cons_cons_eq {α : Type} (sep x y : List α)
    (t : List (List α)) :
    List.intercalate sep (x :: y :: t) =
      x ++ sep ++ List.intercalate sep (y :: t) := by
  simp [List.intercalate, List.intersperse_cons_cons]

theorem mem_intercalate {α : Type} {c : α} (sep : List α) :
    ∀ L : List (List α), c ∈ List.intercalate sep L →
      c ∈ sep ∨ ∃ l ∈ L, c ∈ l := by
  intro L
  induction L with
  | nil =>
    intro h
    rw [intercalate_nil_eq] at h
    exact absurd h (List.not_mem_nil _)
  | cons x t ih =>
    cases t with
    | nil =>
      intro h
      rw [intercalate_singleton_eq] at h
      exact Or.inr ⟨x, by simp, h⟩
    | cons y t' =>
      intro h
      rw [intercalate_cons_cons_eq] at h
      rcases List.mem_append.mp h with h1 | h2
      · rcases List.mem_append.mp h1 with ha | hb
        · exact Or.inr ⟨x, by simp, ha⟩
        · exact Or.inl hb
      · rcases ih h2 with h | ⟨l, hl, hcl⟩
        · exact Or.inl h
        · exact Or.inr ⟨l, by simp [hl], hcl⟩

theorem mem_intercalate_of_mem {α : Type} {c : α} (sep : List α) :
    ∀ (L : List (List α)) (l : List α), l ∈ L → c ∈ l →
      c ∈ List.intercalate sep L := by
  intro L
  induction L with
  | nil =>
    intro l h
    exact absurd h (List.not_mem_nil _)
  | cons x t ih =>
    intro l hl hc
    cases t with
    | nil =>
      rw [intercalate_singleton_eq]
      have := List.mem_singleton.mp hl
      subst this
      exact hc
    | cons y t' =>
      rw [intercalate_cons_cons_eq]
      rcases List.mem_cons.mp hl with h | h
      · subst h
        exact List.mem_append.mpr (Or.inl (List.mem_append.mpr (Or.inl hc)))
      · exact List.mem_append.mpr (Or.inr (ih l h hc))

theorem dropWhile_all_false {α : Type} {p : α → Bool} :
    ∀ l : List α, (∀ c ∈ l, p c = false) → List.dropWhile p l = l := by
  intro l h
  cases l with
  | nil => rfl
  | cons a t => simp [List.dropWhile_cons, h a (by simp)]

/-- Stripping cannot empty a string that has a character the strip set
does not cover. -/
theorem pyStripGen_ne_nil {p : Char → Bool} {s : Str}
    (h : ∃ c ∈ s, p c = false) : pyStripGen p s ≠ [] := by
  obtain ⟨c, hc, hpc⟩ := h
  rw [pyStripGen]
  intro hcontra
  rw [List.reverse_eq_nil_iff, List.dropWhile_eq_nil_iff] at hcontra
  rw [← List.takeWhile_append_dropWhile (p := p) (l := s)] at hc
  rcases List.mem_append.mp hc with htake | hdrop
  · have := List.mem_takeWhile_imp htake
    rw [hpc] at this
    exact Bool.noConfusion this
  · have := hcontra c (List.mem_reverse.mpr hdrop)
    rw [hpc] at this
    exact Bool.noConfusion this

theorem identChar_not_space (c : Char) (h : isIdentChar c = true) :
    pyIsSpace c = false := by
  cases hs : pyIsSpace c
  · rfl
  · exfalso
    rw [pyIsSpace] at hs
    simp only [Bool.or_eq_true, decide_eq_true_eq] at hs
    rcases hs with ((((h1 | h1) | h1) | h1) | h1) | h1 <;>
      (subst h1; exact absurd h (by decide))

theorem identChar_not_strip (c : Char) (h : isIdentChar c = true) :
    semiListStripChar c = false := by
  cases hs : semiListStripChar c
  · rfl
  · exfalso
    rw [semiListStripChar] at hs
    simp only [Bool.or_eq_true, decide_eq_true_eq] at hs
    rcases hs with (h1 | h1) | h1 <;>
      (subst h1; exact absurd h (by decide))

theorem identChar_ne_semi (c : Char) (h : isIdentChar c = true) :
    c ≠ ';' := by
  intro he
  subst he
  exact absurd h (by decide)

theorem identChar_ne_backslash (c : Char) (h : isIdentChar c = true) :
    c ≠ '\\' := by
  intro he
  subst he
  exact absurd h (by decide)

theorem ident_ne_nil {s : Str} (h : isAsciiIdent s = true) : s ≠ [] := by
  rw [isAsciiIdent] at h
  rcases Bool.and_eq_true _ _ |>.mp h with ⟨h1, -⟩
  simpa [List.isEmpty_iff] using h1

theorem ident_chars {s : Str} (h : isAsciiIdent s = true) :
    ∀ c ∈ s, isIdentChar c = true := by
  rw [isAsciiIdent] at h
  rcases Bool.and_eq_true _ _ |>.mp h with ⟨-, h2⟩
  simpa [List.all_eq_true] using h2

/-- Stripping a line of non-whitespace characters with a trailing newline
yields the line body. -/
theorem pyStrip_append_newline (s : Str) (hne : s ≠ [])
    (hall : ∀ c ∈ s, pyIsSpace c = false) :
    pyStrip (s ++ ['\n']) = s := by
  rw [pyStrip, pyStripGen]
  have h1 : List.dropWhile pyIsSpace (s ++ ['\n']) = s ++ ['\n'] := by
    cases s with
    | nil => exact absurd rfl hne
    | cons a t =>
      rw [List.cons_append, List.dropWhile_cons]
      simp [hall a (by simp)]
  rw [h1, List.reverse_append]
  have h2 : List.dropWhile pyIsSpace ('\n' :: s.reverse) = s.reverse := by
    rw [List.dropWhile_cons]
    rw [if_pos (by decide)]
    exact dropWhile_all_false s.reverse
      (fun c hc => hall c (List.mem_reverse.mp hc))
  have h3 : (['\n'] : Str).reverse ++ s.reverse = '\n' :: s.reverse := by
    simp
  rw [h3, h2, List.reverse_reverse]

theorem partitionAfter_modsKey (v : Str) :
    pyPartitionAfter '=' (modsKey ++ v) = v := by
  simp [modsKey, pyPartitionAfter, List.cons_append]

theorem partitionAfter_workshopKey (v : Str) :
    pyPartitionAfter '=' (workshopKey ++ v) = v := by
  simp [workshopKey, pyPartitionAfter, List.cons_append]

theorem dropTrailingEmpties_of_ne_nil (items : List Str)
    (h : ∀ l ∈ items, l ≠ []) : dropTrailingEmpties items = items := by
  rw [dropTrailingEmpties]
  rw [dropWhile_all_false items.reverse ?_]
  · exact List.reverse_reverse items
  · intro l hl
    have := h l (List.mem_reverse.mp hl)
    simpa [List.isEmpty_iff] using this

/-- Parsing inverts joining: `_parse_semicolon_list` inverts `";".join` for a non-empty item list
whose items are non-empty, avoid `;`, and contain at least one character
outside the strip set. -/
theorem parseSemicolonList_intercalate (key : Str)
    (hpart : ∀ v, pyPartitionAfter '=' (key ++ v) = v)
    (items : List Str) (hne : items ≠ [])
    (h1 : ∀ l ∈ items, l ≠ [])
    (h2 : ∀ l ∈ items, (';' : Char) ∉ l)
    (h3 : ∃ l ∈ items, ∃ c ∈ l, semiListStripChar c = false) :
    parseSemicolonList (key ++ List.intercalate [';'] items) = items := by
  rw [parseSemicolonList]
  rw [hpart]
  have hval : ∃ c ∈ List.intercalate [';'] items,
      semiListStripChar c = false := by
    obtain ⟨l, hl, c, hcl, hc⟩ := h3
    exact ⟨c, mem_intercalate_of_mem [';'] items l hl hcl, hc⟩
  have hvne : List.intercalate [';'] items ≠ [] := by
    obtain ⟨c, hc, -⟩ := hval
    intro hcontra
    rw [hcontra] at hc
    exact List.not_mem_nil c hc
  have hcond : ¬((List.intercalate [';'] items).isEmpty ||
      (pyStripGen semiListStripChar
        (List.intercalate [';'] items)).isEmpty) = true := by
    simp only [Bool.or_eq_true, List.isEmpty_iff, not_or]
    exact ⟨hvne, pyStripGen_ne_nil hval⟩
  rw [if_neg hcond]
  have hx' : ∀ l ∈ items, (';' : Char) ∉ l := h2
  rw [List.splitOn_intercalate items ';' hx' hne]
  exact dropTrailingEmpties_of_ne_nil items h1

theorem modsKey_not_space : ∀ c ∈ modsKey, pyIsSpace c = false := by
  decide

theorem workshopKey_not_space : ∀ c ∈ workshopKey, pyIsSpace c = false := by
  decide

theorem filter_idents {L1 : List Str}
    (h1 : ∀ s ∈ L1, s = [] ∨ isAsciiIdent s = true) :
    ∀ s ∈ L1.filter (fun s => !s.isEmpty), isAsciiIdent s = true := by
  intro s hs
  rcases List.mem_filter.mp hs with ⟨hsl, hsne⟩
  rcases h1 s hsl with h | h
  · subst h
    simp at hsne
  · exact h

/-- Characters of the `;`-joined, backslash-escaped id list: the
separator, the escape, or an identifier character. -/
theorem mem_escaped_intercalate {F : List Str}
    (hF : ∀ s ∈ F, isAsciiIdent s = true) {c : Char}
    (hc : c ∈ List.intercalate [';'] (F.map (fun m => '\\' :: m))) :
    c = ';' ∨ c = '\\' ∨ isIdentChar c = true := by
  rcases mem_intercalate [';'] _ hc with hsep | ⟨l, hl, hcl⟩
  · exact Or.inl (List.mem_singleton.mp hsep)
  · obtain ⟨m, hm, rfl⟩ := List.mem_map.mp hl
    rcases List.mem_cons.mp hcl with h | h
    · exact Or.inr (Or.inl h)
    · exact Or.inr (Or.inr (ident_chars (hF m hm) c h))

/-- Characters of the plain `;`-joined id list: the separator or an
identifier character. -/
theorem mem_plain_intercalate {L : List Str}
    (hL : ∀ s ∈ L, isAsciiIdent s = true) {c : Char}
    (hc : c ∈ List.intercalate [';'] L) :
    c = ';' ∨ isIdentChar c = true := by
  rcases mem_intercalate [';'] _ hc with hsep | ⟨l, hl, hcl⟩
  · exact Or.inl (List.mem_singleton.mp hsep)
  · exact Or.inr (ident_chars (hL l hl) c hcl)

theorem pyStrip_formatModsLine (L1 : List Str)
    (h1 : ∀ s ∈ L1, s = [] ∨ isAsciiIdent s = true) :
    pyStrip (formatModsLine L1) =
      modsKey ++ List.intercalate [';']
        ((L1.filter (fun s => !s.isEmpty)).map (fun m => '\\' :: m)) := by
  rw [formatModsLine]
  rw [pyStrip_append_newline]
  · simp [modsKey]
  · intro c hc
    rcases List.mem_append.mp hc with h | h
    · exact modsKey_not_space c h
    · rcases mem_escaped_intercalate (filter_idents h1) h with h | h | h
      · subst h; decide
      · subst h; decide
      · exact identChar_not_space c h

theorem pyStrip_formatWorkshopLine (L2 : List Str)
    (h2 : ∀ s ∈ L2, isAsciiIdent s = true) :
    pyStrip (formatWorkshopLine L2) =
      workshopKey ++ List.intercalate [';'] L2 := by
  rw [formatWorkshopLine]
  rw [pyStrip_append_newline]
  · simp [workshopKey]
  · intro c hc
    rcases List.mem_append.mp hc with h | h
    · exact workshopKey_not_space c h
    · rcases mem_plain_intercalate h2 h with h | h
      · subst h; decide
      · exact identChar_not_space c h

/-- Parsing the stripped fresh `Mods=` line and stripping the escape
prefix recovers the non-empty content ids. -/
theorem parse_stripped_modsLine (L1 : List Str)
    (h1 : ∀ s ∈ L1, s = [] ∨ isAsciiIdent s = true) :
    (parseSemicolonList (pyStrip (formatModsLine L1))).map
        (fun mid => mid.dropWhile (fun c => c = '\\')) =
      L1.filter (fun s => !s.isEmpty) := by
  rw [pyStrip_formatModsLine L1 h1]
  have hF := filter_idents h1
  cases hFnil : L1.filter (fun s => !s.isEmpty) with
  | nil =>
    simp only [List.map_nil, intercalate_nil_eq, List.append_nil]
    rw [parseSemicolonList]
    rw [show pyPartitionAfter '=' modsKey = [] from
      by simpa using partitionAfter_modsKey []]
    simp
  | cons f F' =>
    rw [parseSemicolonList_intercalate modsKey partitionAfter_modsKey]
    · rw [List.map_map]
      rw [hFnil] at hF
      have : ∀ m ∈ f :: F',
          ((fun mid => mid.dropWhile (fun c => c = '\\')) ∘
            (fun m => '\\' :: m)) m = id m := by
        intro m hm
        have hid := hF m hm
        have hmc := ident_chars hid
        obtain ⟨mc, mt, rfl⟩ : ∃ mc mt, m = mc :: mt := by
          cases m with
          | nil => exact absurd rfl (ident_ne_nil hid)
          | cons mc mt => exact ⟨mc, mt, rfl⟩
        simp only [Function.comp_apply, List.dropWhile_cons, id]
        rw [if_pos (by simp),
          if_neg (by simpa using
            identChar_ne_backslash mc (hmc mc (by simp)))]
      rw [List.map_congr_left this, List.map_id]
    · simp
    · intro l hl
      obtain ⟨m, -, rfl⟩ := List.mem_map.mp hl
      simp
    · intro l hl
      obtain ⟨m, hm, rfl⟩ := List.mem_map.mp hl
      rw [hFnil] at hF
      have hid := hF m hm
      intro hsemi
      rcases List.mem_cons.mp hsemi with h | h
      · exact absurd h (by decide)
      · exact absurd rfl (identChar_ne_semi ';' (ident_chars hid ';' h))
    · rw [hFnil] at hF
      have hid := hF f (by simp)
      obtain ⟨fc, ft, rfl⟩ : ∃ fc ft, f = fc :: ft := by
        cases f with
        | nil => exact absurd rfl (ident_ne_nil hid)
        | cons fc ft => exact ⟨fc, ft, rfl⟩
      refine ⟨'\\' :: fc :: ft, by simp, fc, by simp, ?_⟩
      exact identChar_not_strip fc (ident_chars hid fc (by simp))

/-- Parsing the stripped fresh `WorkshopItems=` line recovers the
repository ids. -/
theorem parse_stripped_workshopLine (L2 : List Str)
    (h2 : ∀ s ∈ L2, isAsciiIdent s = true) :
    parseSemicolonList (pyStrip (formatWorkshopLine L2)) = L2 := by
  rw [pyStrip_formatWorkshopLine L2 h2]
  cases hL : L2 with
  | nil =>
    simp only [intercalate_nil_eq, List.append_nil]
    rw [parseSemicolonList]
    rw [show pyPartitionAfter '=' workshopKey = [] from
      by simpa using partitionAfter_workshopKey []]
    simp
  | cons x t =>
    rw [← hL]
    rw [parseSemicolonList_intercalate workshopKey
      partitionAfter_workshopKey]
    · rw [hL]; simp
    · intro l hl
      exact ident_ne_nil (h2 l hl)
    · intro l hl hsemi
      exact absurd rfl
        (identChar_ne_semi ';' (ident_chars (h2 l hl) ';' hsemi))
    · have hid := h2 x (by rw [hL]; simp)
      obtain ⟨xc, xt, hx⟩ : ∃ xc xt, x = xc :: xt := by
        cases x with
        | nil => exact absurd rfl (ident_ne_nil hid)
        | cons xc xt => exact ⟨xc, xt, rfl⟩
      refine ⟨x, by rw [hL]; simp, xc, by rw [hx]; simp, ?_⟩
      exact identChar_not_strip xc (ident_chars hid xc (by rw [hx]; simp))

theorem isPrefixOf_append_self (k v : Str) :
    k.isPrefixOf (k ++ v) = true :=
  List.isPrefixOf_iff_prefix.mpr (List.prefix_append k v)

/-- Applying `load`'s loop to the fresh `Mods=` line re-assigns `mod_ids` to the
non-empty content ids. -/
theorem loadStep_formatModsLine (L1 : List Str)
    (h1 : ∀ s ∈ L1, s = [] ∨ isAsciiIdent s = true) (st : LoadState) :
    loadStep st (formatModsLine L1) =
      { st with mod_ids := L1.filter (fun s => !s.isEmpty) } := by
  have hpref : modsKey.isPrefixOf (pyStrip (formatModsLine L1)) = true := by
    rw [pyStrip_formatModsLine L1 h1]
    exact isPrefixOf_append_self _ _
  simp only [loadStep]
  rw [if_pos hpref]
  rw [parse_stripped_modsLine L1 h1]

/-- Applying `load`'s loop to the fresh `WorkshopItems=` line re-assigns
`workshop_ids` to the repository ids. -/
theorem loadStep_formatWorkshopLine (L2 : List Str)
    (h2 : ∀ s ∈ L2, isAsciiIdent s = true) (st : LoadState) :
    loadStep st (formatWorkshopLine L2) =
      { st with workshop_ids := L2 } := by
  have hns : modsKey.isPrefixOf (pyStrip (formatWorkshopLine L2)) =
      false := by
    rw [pyStrip_formatWorkshopLine L2 h2]
    simp [modsKey, workshopKey, List.isPrefixOf]
  have hps : workshopKey.isPrefixOf (pyStrip (formatWorkshopLine L2)) =
      true := by
    rw [pyStrip_formatWorkshopLine L2 h2]
    exact isPrefixOf_append_self _ _
  simp only [loadStep]
  rw [if_neg (by simp [hns]), if_pos hps]
  rw [parse_stripped_workshopLine L2 h2]

/-- Folding `load`'s loop over `save`'s rendered lines, with the render
flags generalized: each component ends at its fresh parsed value unless the
corresponding flag was pre-set and no matching line occurs. -/
theorem load_foldl_render (mL wL : Str) (M W : List Str)
    (hmods : ∀ st : LoadState, loadStep st mL = { st with mod_ids := M })
    (hws : ∀ st : LoadState,
      loadStep st wL = { st with workshop_ids := W }) :
    ∀ (lines : List Str) (fM fW : Bool) (st : LoadState),
    ((renderGo mL wL lines fM fW).foldl loadStep st) =
      { mod_ids :=
          if fM = true ∧ lines.any isModsLine = false
          then st.mod_ids else M,
        workshop_ids :=
          if fW = true ∧ lines.any isWorkshopLine = false
          then st.workshop_ids else W } := by
  intro lines
  induction lines with
  | nil =>
    intro fM fW st
    cases fM <;> cases fW <;>
      simp [renderGo, hmods, hws]
  | cons l ls ih =>
    intro fM fW st
    by_cases hm : isModsLine l = true
    · have hwf : isWorkshopLine l = false :=
        mods_workshop_disjoint (pyStrip l) hm
      rw [isModsLine] at hm
      rw [isWorkshopLine] at hwf
      simp only [renderGo, hm, if_true, List.foldl_cons, hmods st,
        ih true fW]
      simp [List.any_cons, isModsLine, isWorkshopLine, hm, hwf, ite_self]
    · by_cases hw : isWorkshopLine l = true
      · rw [isModsLine] at hm
        rw [isWorkshopLine] at hw
        simp only [Bool.not_eq_true] at hm
        simp only [renderGo, hm, hw, Bool.false_eq_true, if_false,
          if_true, List.foldl_cons, hws st, ih fM true]
        simp [List.any_cons, isModsLine, isWorkshopLine, hm, hw, ite_self]
      · rw [isModsLine] at hm
        rw [isWorkshopLine] at hw
        simp only [Bool.not_eq_true] at hm hw
        have hstep : loadStep st l = st := by
          simp [loadStep, hm, hw]
        simp only [renderGo, hm, hw, Bool.false_eq_true, if_false,
          List.foldl_cons, hstep, ih fM fW]
        simp [List.any_cons, isModsLine, isWorkshopLine, hm, hw]

/-- C1: codec round trip. For every line list, every content-id list whose
elements are empty or ASCII identifiers, and every repository-id list of
ASCII identifiers (identifiers contain no `;` and no `=`), parsing the
rendered output of `save` yields exactly the content ids with empty
strings removed and the repository ids unchanged, order preserved, with
the legacy backslash escape added on render fully stripped on parse. -/
theorem C1_roundtrip (lines L1 L2 : List Str)
    (h1 : ∀ s ∈ L1, s = [] ∨ isAsciiIdent s = true)
    (h2 : ∀ s ∈ L2, isAsciiIdent s = true) :
    load (render lines L1 L2) =
      (L1.filter (fun s => !s.isEmpty), L2) := by
  simp only [load, render]
  rw [load_foldl_render (formatModsLine L1) (formatWorkshopLine L2)
    (L1.filter (fun s => !s.isEmpty)) L2
    (loadStep_formatModsLine L1 h1) (loadStep_formatWorkshopLine L2 h2)
    lines false false ⟨[], []⟩]
  simp

/-- C1, witness: the round trip applied at a concrete file with a comment
line and a legacy-prefixed directive, a content-id list containing an
empty entry, and one repository id. -/
theorem C1_roundtrip_witness :
    (∀ s ∈ [("a").data, ([] : Str), ("b_2").data],
        s = [] ∨ isAsciiIdent s = true) ∧
    (∀ s ∈ [("111").data], isAsciiIdent s = true) ∧
    load (render [("PVP=true\n").data, ("Mods=\\Old\n").data]
        [("a").data, [], ("b_2").data] [("111").data]) =
      ([("a").data, ("b_2").data], [("111").data]) :=
  ⟨by decide, by decide,
   C1_roundtrip [("PVP=true\n").data, ("Mods=\\Old\n").data]
     [("a").data, [], ("b_2").data] [("111").data]
     (by decide) (by decide)⟩

end PZ


